import Mathlib

/-!
Shallow embedding of the knitSim core: the `YarnWeightCalculator` gauge/weight
combination engine and the `SwatchRenderer` texture/animation routines,
with proofs of the specified properties.

JavaScript numbers are modelled as `ℚ` for the calculator (all its arithmetic
is exact on the inputs of interest) and as `ℝ` for the trigonometric fabric
animation.  Fallible operations (`null` returns, missing lookups) are
modelled with `Option`.
-/

namespace KnitSim

/-- Gauge entry of a weight category: stitches/rows per length label. -/
structure Gauge where
  stitches : ℚ
  rows : ℚ
  per : String
deriving DecidableEq, Repr

/-- Needle size record of a weight category. -/
structure NeedleSize where
  mm : ℚ
  us : String
deriving DecidableEq, Repr

/-- Visual rendering hints of a weight category. -/
structure Visual where
  color : String
  twist : ℚ
deriving DecidableEq, Repr

/-- One standard yarn weight category from the catalog (`weightsData.weights`). -/
structure WeightCategory where
  id : ℤ
  name : String
  thickness : ℚ
  wpi : ℚ
  gauge : Gauge
  needleSize : NeedleSize
  visual : Visual
deriving DecidableEq, Repr

instance : Inhabited WeightCategory :=
  ⟨⟨0, "", 0, 0, ⟨0, 0, ""⟩, ⟨0, ""⟩, ⟨"", 0⟩⟩⟩

/-- A suggested combination entry (`weightsData.suggestedCombinations`). -/
structure Suggestion where
  strands : List ℤ
  result : ℤ
  description : String
deriving DecidableEq, Repr

/-- The data handed to the `YarnWeightCalculator` constructor. -/
structure Catalog where
  weights : List WeightCategory
  suggestions : List Suggestion
deriving DecidableEq, Repr

/-- `getWeight`: lookup in `weightById`.  The lookup table is built by a
`forEach` that assigns `weightById[weight.id] = weight`, so a later entry
with the same id overwrites an earlier one; the fold keeps the last match. -/
def getWeight (c : Catalog) (i : ℤ) : Option WeightCategory :=
  c.weights.foldl (fun acc w => if w.id = i then some w else acc) none

/-- `getCombinedThickness`: sums the thickness of every referenced category,
silently skipping ids that do not resolve (`if (weight)` guard). -/
def getCombinedThickness (c : Catalog) (ids : List ℤ) : ℚ :=
  ids.foldl
    (fun tot i =>
      match getWeight c i with
      | some w => tot + w.thickness
      | none => tot)
    0

/-- Absolute difference between a candidate thickness and a category's
thickness (`Math.abs(combinedThickness - weight.thickness)`). -/
def thicknessDiff (t : ℚ) (w : WeightCategory) : ℚ :=
  |t - w.thickness|

/-- One step of the closest-weight scan: replace the current best only on a
strictly smaller difference (`if (difference < minDifference)`). -/
def pickCloser (t : ℚ) (best w : WeightCategory) : WeightCategory :=
  if thicknessDiff t w < thicknessDiff t best then w else best

/-- The scan of `calculateCombinedWeight` over the catalog: start from
`weights[0]` and fold `pickCloser` over the remaining entries.  An empty
catalog would make the JavaScript throw (`weights[0].thickness` of
`undefined`); it is modelled as `none` and excluded by hypotheses. -/
def closestWeight (c : Catalog) (t : ℚ) : Option WeightCategory :=
  match c.weights with
  | [] => none
  | w0 :: rest => some (rest.foldl (pickCloser t) w0)

/-- Result record of `calculateCombinedWeight`.  `strands` keeps the raw
per-id lookups, which may be `none` for unknown ids (JavaScript stores
`undefined` entries there). -/
structure CombinedResult where
  weight : WeightCategory
  exactThickness : ℚ
  strandCount : ℕ
  strands : List (Option WeightCategory)
deriving DecidableEq, Repr

/-- `calculateCombinedWeight`: `null` on an empty id sequence, otherwise the
catalog entry closest in thickness to the summed thickness. -/
def calculateCombinedWeight (c : Catalog) (ids : List ℤ) : Option CombinedResult :=
  if ids.isEmpty then none
  else
    let t := getCombinedThickness c ids
    match closestWeight c t with
    | none => none
    | some w => some ⟨w, t, ids.length, ids.map (getWeight c)⟩

/-- Linear interpolation step of `interpolateWPI` between a `lower` and an
`upper` category. -/
def lerpWPI (lo hi : WeightCategory) (t : ℚ) : ℚ :=
  lo.wpi - (lo.wpi - hi.wpi) * ((t - lo.thickness) / (hi.thickness - lo.thickness))

/-- The bracket-search loop of `interpolateWPI`: the first adjacent pair
whose thicknesses enclose `t` wins (`break` on first hit). -/
def findBracket : List WeightCategory → ℚ → Option (WeightCategory × WeightCategory)
  | w1 :: w2 :: rest, t =>
    if w1.thickness ≤ t ∧ t ≤ w2.thickness then some (w1, w2)
    else findBracket (w2 :: rest) t
  | _, _ => none

/-- `interpolateWPI`: if an enclosing adjacent pair exists, interpolate
between it; otherwise `lower` stays `weights[0]` and `upper` stays the last
entry, which coincide (the `lower === upper` reference check) exactly when
the catalog is a singleton.  With an empty catalog the JavaScript would
throw; `0` stands in for that unreachable case. -/
def interpolateWPI (c : Catalog) (t : ℚ) : ℚ :=
  match findBracket c.weights t with
  | some (lo, hi) => lerpWPI lo hi t
  | none =>
    match c.weights with
    | [] => 0
    | [w] => w.wpi
    | w0 :: w1 :: rest => lerpWPI w0 ((w1 :: rest).getLast (by simp)) t

/-- Result record of `getCombinedWPI`. -/
structure WPIResult where
  approximate : ℚ
  calculated : ℚ
deriving DecidableEq, Repr

/-- `getCombinedWPI`: nominal WPI of the nearest category together with the
interpolated WPI rounded to one decimal (`Math.round(x * 10) / 10`). -/
def getCombinedWPI (c : Catalog) (ids : List ℤ) : Option WPIResult :=
  match calculateCombinedWeight c ids with
  | none => none
  | some r =>
    some ⟨r.weight.wpi, (round (interpolateWPI c (getCombinedThickness c ids) * 10) : ℚ) / 10⟩

/-- Result record of `estimateCombinedGauge`. -/
structure GaugeEstimate where
  stitches : ℤ
  rows : ℤ
  per : String
  note : String
deriving DecidableEq, Repr

/-- `estimateCombinedGauge`: scales the nearest category's gauge by the
reciprocal of `exactThickness / standardThickness`, rounding to the nearest
integer (JavaScript `Math.round x = ⌊x + 1/2⌋`, which is Mathlib's `round`). -/
def estimateCombinedGauge (c : Catalog) (ids : List ℤ) : Option GaugeEstimate :=
  match calculateCombinedWeight c ids with
  | none => none
  | some r =>
    let ratio := r.exactThickness / r.weight.thickness
    some
      ⟨round (r.weight.gauge.stitches / ratio),
       round (r.weight.gauge.rows / ratio),
       r.weight.gauge.per,
       if ratio ≠ 1 then "Adjusted from standard " ++ r.weight.name ++ " gauge"
       else "Standard " ++ r.weight.name ++ " gauge"⟩

/-- Result record of `getRecommendedNeedleSize`. -/
structure NeedleRec where
  mm : ℚ
  us : String
  weight : String
deriving DecidableEq, Repr

/-- `getRecommendedNeedleSize`: passes the nearest category's needle size
through unmodified. -/
def getRecommendedNeedleSize (c : Catalog) (ids : List ℤ) : Option NeedleRec :=
  match calculateCombinedWeight c ids with
  | none => none
  | some r => some ⟨r.weight.needleSize.mm, r.weight.needleSize.us, r.weight.name⟩

/-- The numeric ascending sort `[...ids].sort((a, b) => a - b)`.  Any
correct sort produces the same list on integers. -/
def sortIds (l : List ℤ) : List ℤ :=
  l.insertionSort (· ≤ ·)

/-- `matchesSuggestion`: first suggestion whose sorted strand ids equal the
sorted input ids (`arraysEqual` after both sides are sorted); `none` models
the `{matches: false}` return. -/
def matchesSuggestion (c : Catalog) (ids : List ℤ) : Option Suggestion :=
  c.suggestions.find? (fun s => sortIds ids == sortIds s.strands)

/-- `generateSummaryText`: joins the strand names.  If some strand id did
not resolve, the JavaScript `s.name` access throws a `TypeError`; that abort
is modelled as `none`. -/
def generateSummaryText (combined : CombinedResult) (sug : Option Suggestion) :
    Option String :=
  match combined.strands.mapM id with
  | none => none
  | some ws =>
    let base := String.intercalate " + " (ws.map WeightCategory.name)
      ++ " ≈ " ++ combined.weight.name
    some
      (match sug with
       | some s => base ++ " (" ++ s.description ++ ")"
       | none => base)

/-- Full report record of `generateReport`. -/
structure Report where
  combined : CombinedResult
  wpi : Option WPIResult
  gauge : Option GaugeEstimate
  needles : Option NeedleRec
  suggestion : Option Suggestion
  summary : Option String
deriving DecidableEq, Repr

/-- `generateReport`: `null` when `calculateCombinedWeight` is `null`
(empty input), otherwise the assembled report. -/
def generateReport (c : Catalog) (ids : List ℤ) : Option Report :=
  match calculateCombinedWeight c ids with
  | none => none
  | some combined =>
    some
      ⟨combined,
       getCombinedWPI c ids,
       estimateCombinedGauge c ids,
       getRecommendedNeedleSize c ids,
       matchesSuggestion c ids,
       generateSummaryText combined (matchesSuggestion c ids)⟩

/-!
A concrete catalog realizing the spec's scenario: Lace (thickness 1.0),
Worsted (thickness 4.0), Bulky (thickness 8.0), with strictly increasing
thickness and non-increasing WPI, plus one suggested combination.
-/

/-- The Lace entry of the scenario catalog. -/
def lace : WeightCategory :=
  ⟨1, "Lace", 1, 30, ⟨32, 40, "4 inches"⟩, ⟨2, "0"⟩, ⟨"#d8cfe0", 1⟩⟩

/-- The Worsted entry of the scenario catalog. -/
def worsted : WeightCategory :=
  ⟨2, "Worsted", 4, 9, ⟨20, 26, "4 inches"⟩, ⟨9/2, "7"⟩, ⟨"#b08860", 1⟩⟩

/-- The Bulky entry of the scenario catalog. -/
def bulky : WeightCategory :=
  ⟨3, "Bulky", 8, 6, ⟨12, 16, "4 inches"⟩, ⟨8, "11"⟩, ⟨"#886644", 1⟩⟩

/-- The scenario catalog of the spec's testable properties. -/
def sampleCatalog : Catalog :=
  ⟨[lace, worsted, bulky], [⟨[2, 2], 3, "Two worsted strands"⟩]⟩

/-- The fold of `pickCloser` returns the first entry of `b :: ws` attaining
the minimal thickness difference: the result splits the scanned list, every
entry strictly before it has strictly larger difference (a tie keeps the
earlier entry), and no entry anywhere has smaller difference. -/
theorem foldl_pickCloser_first_min (t : ℚ) :
    ∀ (ws : List WeightCategory) (b : WeightCategory),
      ∃ pre suf, b :: ws = pre ++ ws.foldl (pickCloser t) b :: suf ∧
        (∀ w ∈ pre,
          thicknessDiff t (ws.foldl (pickCloser t) b) < thicknessDiff t w) ∧
        (∀ w ∈ b :: ws,
          thicknessDiff t (ws.foldl (pickCloser t) b) ≤ thicknessDiff t w) := by
  intro ws
  induction ws with
  | nil =>
    intro b
    exact ⟨[], [], rfl, by simp, by simp⟩
  | cons w ws ih =>
    intro b
    rw [List.foldl_cons]
    by_cases hlt : thicknessDiff t w < thicknessDiff t b
    · have hb' : pickCloser t b w = w := by simp [pickCloser, hlt]
      rw [hb']
      obtain ⟨pre', suf', heq, hstrict, hmin⟩ := ih w
      have hfw : thicknessDiff t (ws.foldl (pickCloser t) w) ≤ thicknessDiff t w :=
        hmin w (by simp)
      refine ⟨b :: pre', suf', by rw [List.cons_append, ← heq], ?_, ?_⟩
      · intro x hx
        rcases List.mem_cons.1 hx with hxb | hxpre
        · subst hxb
          exact lt_of_le_of_lt hfw hlt
        · exact hstrict x hxpre
      · intro x hx
        rcases List.mem_cons.1 hx with hxb | hxtail
        · subst hxb
          exact le_of_lt (lt_of_le_of_lt hfw hlt)
        · exact hmin x hxtail
    · have hb' : pickCloser t b w = b := by simp [pickCloser, hlt]
      rw [hb']
      have hble : thicknessDiff t b ≤ thicknessDiff t w := le_of_not_lt hlt
      obtain ⟨pre', suf', heq, hstrict, hmin⟩ := ih b
      cases pre' with
      | nil =>
        rw [List.nil_append] at heq
        injection heq with h1 h2
        refine ⟨[], w :: ws, ?_, by simp, ?_⟩
        · rw [List.nil_append, ← h1]
        · intro x hx
          rcases List.mem_cons.1 hx with hxb | hxtail
          · subst hxb; rw [← h1]
          · rcases List.mem_cons.1 hxtail with hxw | hxws
            · subst hxw; rw [← h1]; exact hble
            · exact hmin x (List.mem_cons_of_mem _ hxws)
      | cons p pre'' =>
        rw [List.cons_append] at heq
        injection heq with hbp hws
        have hrb : thicknessDiff t (ws.foldl (pickCloser t) b) < thicknessDiff t b := by
          have hp := hstrict p (by simp)
          rwa [← hbp] at hp
        refine ⟨b :: w :: pre'', suf', ?_, ?_, ?_⟩
        · rw [List.cons_append, List.cons_append, ← hws]
        · intro x hx
          rcases List.mem_cons.1 hx with hxb | hx2
          · subst hxb; exact hrb
          · rcases List.mem_cons.1 hx2 with hxw | hxpre
            · subst hxw; exact lt_of_lt_of_le hrb hble
            · exact hstrict x (List.mem_cons_of_mem _ hxpre)
        · intro x hx
          rcases List.mem_cons.1 hx with hxb | hx2
          · subst hxb; exact le_of_lt hrb
          · rcases List.mem_cons.1 hx2 with hxw | hxws
            · subst hxw; exact le_of_lt (lt_of_lt_of_le hrb hble)
            · exact hmin x (List.mem_cons_of_mem _ hxws)

/-- Shape of `calculateCombinedWeight` on a non-empty input over a
non-empty catalog. -/
theorem calculateCombinedWeight_eq_some (c : Catalog) (w0 : WeightCategory)
    (rest : List WeightCategory) (hw : c.weights = w0 :: rest)
    (ids : List ℤ) (hids : ids ≠ []) :
    calculateCombinedWeight c ids =
      some ⟨rest.foldl (pickCloser (getCombinedThickness c ids)) w0,
            getCombinedThickness c ids, ids.length, ids.map (getWeight c)⟩ := by
  unfold calculateCombinedWeight closestWeight
  rw [hw]
  have hne : ids.isEmpty = false := by
    cases ids with
    | nil => exact absurd rfl hids
    | cons a l => rfl
  rw [hne]
  rfl

/-- C1: for every non-empty id sequence over a non-empty catalog,
`calculateCombinedWeight` returns the catalog entry minimizing the absolute
difference between the combined exact thickness and the entry's thickness,
ties resolved by catalog order (the entries strictly before the winner all
have strictly larger difference); concretely, combining two Worsted strands
over the Lace/Worsted/Bulky catalog yields exact thickness 8 and nearest
category Bulky. -/
theorem calculateCombinedWeight_nearest_first_min :
    (∀ (c : Catalog) (ids : List ℤ), c.weights ≠ [] → ids ≠ [] →
      ∃ r, calculateCombinedWeight c ids = some r ∧
        r.exactThickness = getCombinedThickness c ids ∧
        (∀ w ∈ c.weights,
          thicknessDiff r.exactThickness r.weight ≤ thicknessDiff r.exactThickness w) ∧
        ∃ pre suf, c.weights = pre ++ r.weight :: suf ∧
          ∀ w ∈ pre,
            thicknessDiff r.exactThickness r.weight < thicknessDiff r.exactThickness w) ∧
    (calculateCombinedWeight sampleCatalog [2, 2]).map
      (fun r => (r.exactThickness, r.weight.name)) = some (8, "Bulky") := by
  constructor
  · intro c ids hws hids
    obtain ⟨w0, rest, hw⟩ := List.exists_cons_of_ne_nil hws
    refine ⟨_, calculateCombinedWeight_eq_some c w0 rest hw ids hids, rfl, ?_, ?_⟩
    · intro w hwmem
      obtain ⟨pre, suf, heq, hstrict, hmin⟩ :=
        foldl_pickCloser_first_min (getCombinedThickness c ids) rest w0
      rw [hw] at hwmem
      exact hmin w hwmem
    · obtain ⟨pre, suf, heq, hstrict, hmin⟩ :=
        foldl_pickCloser_first_min (getCombinedThickness c ids) rest w0
      exact ⟨pre, suf, by rw [hw, heq], hstrict⟩
  · norm_num [calculateCombinedWeight, closestWeight, getCombinedThickness, getWeight,
      pickCloser, thicknessDiff, sampleCatalog, lace, worsted, bulky]

/-- Witness instantiating the C1 theorem on the scenario catalog. -/
theorem calculateCombinedWeight_nearest_first_min_witness :
    ∃ r, calculateCombinedWeight sampleCatalog [2, 2] = some r ∧
      r.exactThickness = getCombinedThickness sampleCatalog [2, 2] ∧
      (∀ w ∈ sampleCatalog.weights,
        thicknessDiff r.exactThickness r.weight ≤ thicknessDiff r.exactThickness w) ∧
      ∃ pre suf, sampleCatalog.weights = pre ++ r.weight :: suf ∧
        ∀ w ∈ pre,
          thicknessDiff r.exactThickness r.weight < thicknessDiff r.exactThickness w :=
  calculateCombinedWeight_nearest_first_min.1 sampleCatalog [2, 2]
    (by simp [sampleCatalog]) (by simp)

/-- C6: the combine operation fails (returns `null`) on an empty strand id
sequence, as does `generateReport`, while every non-empty sequence yields a
`CombinedResult`. -/
theorem combine_empty_input_fails :
    ∀ c : Catalog,
      calculateCombinedWeight c [] = none ∧
      generateReport c [] = none ∧
      ∀ ids : List ℤ, ids ≠ [] → c.weights ≠ [] →
        (calculateCombinedWeight c ids).isSome := by
  intro c
  refine ⟨rfl, rfl, ?_⟩
  intro ids hids hws
  obtain ⟨w0, rest, hw⟩ := List.exists_cons_of_ne_nil hws
  rw [calculateCombinedWeight_eq_some c w0 rest hw ids hids]
  rfl

/-- Witness instantiating the C6 theorem on the scenario catalog. -/
theorem combine_empty_input_fails_witness :
    (calculateCombinedWeight sampleCatalog [2, 2]).isSome :=
  (combine_empty_input_fails sampleCatalog).2.2 [2, 2] (by simp) (by simp [sampleCatalog])

/-- The thickness accumulator equals the sum of the thicknesses of the ids
that resolve in the catalog (unresolved ids are silently skipped). -/
theorem getCombinedThickness_eq_sum (c : Catalog) (ids : List ℤ) :
    getCombinedThickness c ids =
      ((ids.filterMap (getWeight c)).map WeightCategory.thickness).sum := by
  suffices h : ∀ (l : List ℤ) (a : ℚ),
      l.foldl
        (fun tot i =>
          match getWeight c i with
          | some w => tot + w.thickness
          | none => tot) a
        = a + ((l.filterMap (getWeight c)).map WeightCategory.thickness).sum by
    simpa [getCombinedThickness] using h ids 0
  intro l
  induction l with
  | nil => intro a; simp
  | cons i l ihl =>
    intro a
    cases hw : getWeight c i with
    | none => simp [List.foldl_cons, hw, ihl, List.filterMap_cons]
    | some w => simp [List.foldl_cons, hw, ihl, List.filterMap_cons, add_assoc]

/-- C10: `getCombinedThickness` silently skips unknown ids (they contribute
zero), and a non-empty sequence of entirely unknown ids still yields a
`CombinedResult` with exact thickness 0 whose nearest category minimizes the
distance to 0, rather than an error. -/
theorem unknown_ids_skipped :
    (∀ (c : Catalog) (ids : List ℤ),
      getCombinedThickness c ids =
        ((ids.filterMap (getWeight c)).map WeightCategory.thickness).sum) ∧
    ∀ (c : Catalog) (ids : List ℤ), c.weights ≠ [] → ids ≠ [] →
      (∀ i ∈ ids, getWeight c i = none) →
      ∃ r, calculateCombinedWeight c ids = some r ∧
        r.exactThickness = 0 ∧
        ∀ w ∈ c.weights, thicknessDiff 0 r.weight ≤ thicknessDiff 0 w := by
  refine ⟨getCombinedThickness_eq_sum, ?_⟩
  intro c ids hws hids hnone
  obtain ⟨w0, rest, hw⟩ := List.exists_cons_of_ne_nil hws
  have h0 : getCombinedThickness c ids = 0 := by
    rw [getCombinedThickness_eq_sum]
    have : ids.filterMap (getWeight c) = [] := by
      rw [List.filterMap_eq_nil_iff]
      exact hnone
    rw [this]
    simp
  refine ⟨_, calculateCombinedWeight_eq_some c w0 rest hw ids hids, h0, ?_⟩
  intro w hwmem
  obtain ⟨pre, suf, heq, hstrict, hmin⟩ :=
    foldl_pickCloser_first_min (getCombinedThickness c ids) rest w0
  rw [hw] at hwmem
  show thicknessDiff 0 (rest.foldl (pickCloser (getCombinedThickness c ids)) w0) ≤
    thicknessDiff 0 w
  rw [h0]
  have := hmin w hwmem
  rwa [h0] at this

/-- Witness instantiating the C10 theorem: id 99 is unknown to the scenario
catalog. -/
theorem unknown_ids_skipped_witness :
    ∃ r, calculateCombinedWeight sampleCatalog [99, 99] = some r ∧
      r.exactThickness = 0 ∧
      ∀ w ∈ sampleCatalog.weights, thicknessDiff 0 r.weight ≤ thicknessDiff 0 w :=
  unknown_ids_skipped.2 sampleCatalog [99, 99] (by simp [sampleCatalog]) (by simp)
    (by
      intro i hi
      have h99 : i = 99 := by simpa using hi
      subst h99
      decide)

/-- When every id resolves, `filterMap` of the lookup is the plain `map`. -/
theorem filterMap_getWeight_of_isSome (c : Catalog) :
    ∀ l : List ℤ, (∀ i ∈ l, (getWeight c i).isSome) →
      l.filterMap (getWeight c) = l.map (fun i => (getWeight c i).getD default) := by
  intro l
  induction l with
  | nil => intro _; rfl
  | cons i l ihl =>
    intro hall
    have hi : (getWeight c i).isSome := hall i (by simp)
    obtain ⟨w, hw⟩ := Option.isSome_iff_exists.1 hi
    have hrest : ∀ j ∈ l, (getWeight c j).isSome := fun j hj => hall j (by simp [hj])
    simp [List.filterMap_cons, hw, ihl hrest]

/-- C2: for non-empty inputs whose ids all resolve, `exactThickness` is the
arithmetic sum of the referenced categories' cataloged thicknesses, and the
value is invariant under permutation of the input sequence. -/
theorem exactThickness_sum_order_independent :
    ∀ (c : Catalog) (ids : List ℤ), c.weights ≠ [] → ids ≠ [] →
      (∀ i ∈ ids, (getWeight c i).isSome) →
      ∃ r, calculateCombinedWeight c ids = some r ∧
        r.exactThickness =
          (ids.map (fun i => ((getWeight c i).getD default).thickness)).sum ∧
        ∀ ids2 : List ℤ, ids2.Perm ids →
          ∃ r2, calculateCombinedWeight c ids2 = some r2 ∧
            r2.exactThickness = r.exactThickness := by
  intro c ids hws hids hvalid
  obtain ⟨w0, rest, hw⟩ := List.exists_cons_of_ne_nil hws
  refine ⟨_, calculateCombinedWeight_eq_some c w0 rest hw ids hids, ?_, ?_⟩
  · show getCombinedThickness c ids = _
    rw [getCombinedThickness_eq_sum, filterMap_getWeight_of_isSome c ids hvalid,
      List.map_map]
    rfl
  · intro ids2 hperm
    have hids2 : ids2 ≠ [] := by
      intro h
      subst h
      exact hids hperm.symm.eq_nil
    refine ⟨_, calculateCombinedWeight_eq_some c w0 rest hw ids2 hids2, ?_⟩
    show getCombinedThickness c ids2 = getCombinedThickness c ids
    rw [getCombinedThickness_eq_sum, getCombinedThickness_eq_sum]
    exact ((hperm.filterMap (getWeight c)).map WeightCategory.thickness).sum_eq

/-- Witness instantiating the C2 theorem: two Worsted ids over the scenario
catalog, with `[2, 2]` reordered to itself. -/
theorem exactThickness_sum_order_independent_witness :
    ∃ r, calculateCombinedWeight sampleCatalog [2, 2] = some r ∧
      r.exactThickness =
        (([2, 2] : List ℤ).map
          (fun i => ((getWeight sampleCatalog i).getD default).thickness)).sum ∧
      ∀ ids2 : List ℤ, ids2.Perm [2, 2] →
        ∃ r2, calculateCombinedWeight sampleCatalog ids2 = some r2 ∧
          r2.exactThickness = r.exactThickness :=
  exactThickness_sum_order_independent sampleCatalog [2, 2]
    (by simp [sampleCatalog]) (by simp)
    (by
      intro i hi
      have h2 : i = 2 := by simpa using hi
      subst h2
      decide)

/-- C4: the gauge estimate divides the nearest category's base stitch and
row counts by the thickness ratio `exactThickness / nearestThickness` and
rounds to the nearest integer, while the recommended needle size is the
nearest category's needle size passed through unmodified. -/
theorem gauge_scaled_needle_unmodified :
    ∀ (c : Catalog) (ids : List ℤ), c.weights ≠ [] → ids ≠ [] →
      (∀ w ∈ c.weights, 0 < w.thickness) →
      (∀ i ∈ ids, (getWeight c i).isSome) →
      ∃ r, calculateCombinedWeight c ids = some r ∧
        estimateCombinedGauge c ids = some
          ⟨round (r.weight.gauge.stitches / (r.exactThickness / r.weight.thickness)),
           round (r.weight.gauge.rows / (r.exactThickness / r.weight.thickness)),
           r.weight.gauge.per,
           if r.exactThickness / r.weight.thickness ≠ 1 then
             "Adjusted from standard " ++ r.weight.name ++ " gauge"
           else "Standard " ++ r.weight.name ++ " gauge"⟩ ∧
        getRecommendedNeedleSize c ids =
          some ⟨r.weight.needleSize.mm, r.weight.needleSize.us, r.weight.name⟩ := by
  intro c ids hws hids _hpos _hvalid
  obtain ⟨w0, rest, hw⟩ := List.exists_cons_of_ne_nil hws
  have hcalc := calculateCombinedWeight_eq_some c w0 rest hw ids hids
  refine ⟨_, hcalc, ?_, ?_⟩
  · unfold estimateCombinedGauge
    rw [hcalc]
  · unfold getRecommendedNeedleSize
    rw [hcalc]

/-- Witness instantiating the C4 theorem on the scenario catalog. -/
theorem gauge_scaled_needle_unmodified_witness :
    ∃ r, calculateCombinedWeight sampleCatalog [2, 2] = some r ∧
      estimateCombinedGauge sampleCatalog [2, 2] = some
        ⟨round (r.weight.gauge.stitches / (r.exactThickness / r.weight.thickness)),
         round (r.weight.gauge.rows / (r.exactThickness / r.weight.thickness)),
         r.weight.gauge.per,
         if r.exactThickness / r.weight.thickness ≠ 1 then
           "Adjusted from standard " ++ r.weight.name ++ " gauge"
         else "Standard " ++ r.weight.name ++ " gauge"⟩ ∧
      getRecommendedNeedleSize sampleCatalog [2, 2] =
        some ⟨r.weight.needleSize.mm, r.weight.needleSize.us, r.weight.name⟩ :=
  gauge_scaled_needle_unmodified sampleCatalog [2, 2]
    (by simp [sampleCatalog]) (by simp)
    (by
      intro w hwmem
      have hcases : w = lace ∨ w = worsted ∨ w = bulky := by
        simpa [sampleCatalog] using hwmem
      rcases hcases with h | h | h <;>
        (rw [h]; norm_num [lace, worsted, bulky]))
    (by
      intro i hi
      have h2 : i = 2 := by simpa using hi
      subst h2
      decide)

/-- Two integer lists have equal ascending sorts exactly when they are
permutations of one another. -/
theorem sortIds_eq_iff_perm (l1 l2 : List ℤ) :
    sortIds l1 = sortIds l2 ↔ l1.Perm l2 := by
  have hp1 : (sortIds l1).Perm l1 := List.perm_insertionSort _ l1
  have hp2 : (sortIds l2).Perm l2 := List.perm_insertionSort _ l2
  constructor
  · intro h
    have h2 : (sortIds l1).Perm l2 := by rw [h]; exact hp2
    exact hp1.symm.trans h2
  · intro h
    exact List.eq_of_perm_of_sorted ((hp1.trans h).trans hp2.symm)
      (List.sorted_insertionSort _ l1) (List.sorted_insertionSort _ l2)

/-- C5: `matchesSuggestion` reports a match exactly when the multiset of
input ids equals the multiset of some cataloged suggestion's ids; the whole
result is invariant under reordering of the input, and strict sub- or
super-multisets cannot match (multiset equality is exact). -/
theorem matchesSuggestion_multiset :
    ∀ (c : Catalog) (ids : List ℤ),
      ((matchesSuggestion c ids).isSome ↔
        ∃ s ∈ c.suggestions, (ids : Multiset ℤ) = (s.strands : Multiset ℤ)) ∧
      ∀ ids2 : List ℤ, ids2.Perm ids →
        matchesSuggestion c ids2 = matchesSuggestion c ids := by
  intro c ids
  constructor
  · rw [matchesSuggestion, List.find?_isSome]
    constructor
    · rintro ⟨s, hs, hp⟩
      refine ⟨s, hs, ?_⟩
      rw [Multiset.coe_eq_coe]
      exact (sortIds_eq_iff_perm ids s.strands).1 (by simpa using hp)
    · rintro ⟨s, hs, hm⟩
      refine ⟨s, hs, ?_⟩
      rw [Multiset.coe_eq_coe] at hm
      simpa using (sortIds_eq_iff_perm ids s.strands).2 hm
  · intro ids2 hperm
    have hsort : sortIds ids2 = sortIds ids := (sortIds_eq_iff_perm ids2 ids).2 hperm
    rw [matchesSuggestion, matchesSuggestion, hsort]

/-- Witness instantiating the C5 theorem: `[2, 2]` matches the scenario
suggestion, and the identity reordering leaves the result unchanged. -/
theorem matchesSuggestion_multiset_witness :
    (matchesSuggestion sampleCatalog [2, 2]).isSome ∧
    matchesSuggestion sampleCatalog [2, 2] = matchesSuggestion sampleCatalog [2, 2] :=
  ⟨(matchesSuggestion_multiset sampleCatalog [2, 2]).1.2
      ⟨⟨[2, 2], 3, "Two worsted strands"⟩, by simp [sampleCatalog], rfl⟩,
   (matchesSuggestion_multiset sampleCatalog [2, 2]).2 [2, 2] (List.Perm.refl _)⟩

/-- The catalog-order hypothesis of the WPI claims: strictly increasing
thickness and non-increasing WPI along the weights list. -/
def catalogOrdered (ws : List WeightCategory) : Prop :=
  List.Pairwise (fun a b => a.thickness < b.thickness ∧ b.wpi ≤ a.wpi) ws

/-- The interpolation value is at most the lower end's WPI once `t` is at or
above the lower end's thickness. -/
theorem lerpWPI_le_left (lo hi : WeightCategory) (t : ℚ)
    (hth : lo.thickness < hi.thickness) (hw : hi.wpi ≤ lo.wpi)
    (h1 : lo.thickness ≤ t) : lerpWPI lo hi t ≤ lo.wpi := by
  unfold lerpWPI
  have hd : (0 : ℚ) < hi.thickness - lo.thickness := by linarith
  have hr : 0 ≤ (t - lo.thickness) / (hi.thickness - lo.thickness) :=
    div_nonneg (by linarith) (le_of_lt hd)
  nlinarith [mul_nonneg (by linarith : (0 : ℚ) ≤ lo.wpi - hi.wpi) hr]

/-- The interpolation value is at least the upper end's WPI while `t` is at
or below the upper end's thickness. -/
theorem right_le_lerpWPI (lo hi : WeightCategory) (t : ℚ)
    (hth : lo.thickness < hi.thickness) (hw : hi.wpi ≤ lo.wpi)
    (h2 : t ≤ hi.thickness) : hi.wpi ≤ lerpWPI lo hi t := by
  unfold lerpWPI
  have hd : (0 : ℚ) < hi.thickness - lo.thickness := by linarith
  have hr1 : (t - lo.thickness) / (hi.thickness - lo.thickness) ≤ 1 := by
    rw [div_le_one hd]
    linarith
  have hkey := mul_le_of_le_one_right (by linarith : (0 : ℚ) ≤ lo.wpi - hi.wpi) hr1
  linarith

/-- On a fixed bracket the interpolation is antitone in `t`. -/
theorem lerpWPI_antitone (lo hi : WeightCategory)
    (hth : lo.thickness < hi.thickness) (hw : hi.wpi ≤ lo.wpi)
    {t1 t2 : ℚ} (h : t1 ≤ t2) : lerpWPI lo hi t2 ≤ lerpWPI lo hi t1 := by
  unfold lerpWPI
  have hd : (0 : ℚ) < hi.thickness - lo.thickness := by linarith
  have hr : (t1 - lo.thickness) / (hi.thickness - lo.thickness)
      ≤ (t2 - lo.thickness) / (hi.thickness - lo.thickness) :=
    (div_le_div_iff_of_pos_right hd).mpr (by linarith)
  have hkey := mul_le_mul_of_nonneg_left hr (by linarith : (0 : ℚ) ≤ lo.wpi - hi.wpi)
  linarith

/-- In an ordered catalog the head has minimal thickness and maximal WPI. -/
theorem catalogOrdered_head_bound (w : WeightCategory) (ws : List WeightCategory)
    (hp : catalogOrdered (w :: ws)) :
    ∀ x ∈ w :: ws, w.thickness ≤ x.thickness ∧ x.wpi ≤ w.wpi := by
  intro x hx
  rcases List.mem_cons.1 hx with h | h
  · subst h
    exact ⟨le_refl _, le_refl _⟩
  · have hr := (List.pairwise_cons.1 hp).1 x h
    exact ⟨le_of_lt hr.1, hr.2⟩

/-- In an ordered catalog the last entry has maximal thickness and minimal
WPI. -/
theorem catalogOrdered_last_bound :
    ∀ (ws : List WeightCategory) (h : ws ≠ []), catalogOrdered ws →
      ∀ x ∈ ws, x.thickness ≤ (ws.getLast h).thickness ∧ (ws.getLast h).wpi ≤ x.wpi := by
  intro ws
  induction ws with
  | nil => intro h; exact absurd rfl h
  | cons w1 ws ih =>
    intro h hp x hx
    cases ws with
    | nil =>
      have hx1 : x = w1 := by simpa using hx
      subst hx1
      exact ⟨le_refl _, le_refl _⟩
    | cons w2 rest =>
      have hlast : (w1 :: w2 :: rest).getLast h = (w2 :: rest).getLast (by simp) :=
        List.getLast_cons _
      rw [hlast]
      have hp' : catalogOrdered (w2 :: rest) := (List.pairwise_cons.1 hp).2
      rcases List.mem_cons.1 hx with h1 | h1
      · subst h1
        have hmem := List.getLast_mem (l := w2 :: rest) (by simp)
        have hr := (List.pairwise_cons.1 hp).1 _ hmem
        exact ⟨le_of_lt hr.1, hr.2⟩
      · exact ih (by simp) hp' x h1

/-- Soundness of the bracket search: a returned pair consists of catalog
members enclosing `t`, with the bracket itself correctly ordered. -/
theorem findBracket_sound :
    ∀ (ws : List WeightCategory) (t : ℚ) (lo hi : WeightCategory),
      catalogOrdered ws → findBracket ws t = some (lo, hi) →
      lo ∈ ws ∧ hi ∈ ws ∧ lo.thickness ≤ t ∧ t ≤ hi.thickness ∧
        lo.thickness < hi.thickness ∧ hi.wpi ≤ lo.wpi := by
  intro ws
  induction ws with
  | nil =>
    intro t lo hi _ hfind
    simp [findBracket] at hfind
  | cons w1 ws ih =>
    cases ws with
    | nil =>
      intro t lo hi _ hfind
      simp [findBracket] at hfind
    | cons w2 rest =>
      intro t lo hi hp hfind
      rw [findBracket] at hfind
      by_cases hcond : w1.thickness ≤ t ∧ t ≤ w2.thickness
      · rw [if_pos hcond] at hfind
        have hpair := Option.some.inj hfind
        injection hpair with he1 he2
        subst he1
        subst he2
        have hr := (List.pairwise_cons.1 hp).1 w2 (by simp)
        exact ⟨by simp, by simp, hcond.1, hcond.2, hr.1, hr.2⟩
      · rw [if_neg hcond] at hfind
        have hp' : catalogOrdered (w2 :: rest) := (List.pairwise_cons.1 hp).2
        obtain ⟨h1, h2, h3, h4, h5, h6⟩ := ih t lo hi hp' hfind
        exact ⟨List.mem_cons_of_mem _ h1, List.mem_cons_of_mem _ h2, h3, h4, h5, h6⟩

/-- When `t` lies strictly below every thickness, the bracket search finds
nothing. -/
theorem findBracket_none_low :
    ∀ (ws : List WeightCategory) (t : ℚ),
      (∀ x ∈ ws, t < x.thickness) → findBracket ws t = none := by
  intro ws
  induction ws with
  | nil => intro t _; rfl
  | cons w1 ws ih =>
    intro t hall
    cases ws with
    | nil => rfl
    | cons w2 rest =>
      rw [findBracket,
        if_neg (by intro hc; exact absurd hc.1 (not_le.2 (hall w1 (by simp))))]
      exact ih t (fun x hx => hall x (List.mem_cons_of_mem _ hx))

/-- When `t` lies strictly above every thickness, the bracket search finds
nothing. -/
theorem findBracket_none_high :
    ∀ (ws : List WeightCategory) (t : ℚ),
      (∀ x ∈ ws, x.thickness < t) → findBracket ws t = none := by
  intro ws
  induction ws with
  | nil => intro t _; rfl
  | cons w1 ws ih =>
    intro t hall
    cases ws with
    | nil => rfl
    | cons w2 rest =>
      rw [findBracket,
        if_neg (by intro hc; exact absurd hc.2 (not_le.2 (hall w2 (by simp))))]
      exact ih t (fun x hx => hall x (List.mem_cons_of_mem _ hx))

/-- Inside the catalog's thickness range the bracket search succeeds. -/
theorem findBracket_some_in_range :
    ∀ (rest : List WeightCategory) (w1 w2 : WeightCategory) (t : ℚ),
      catalogOrdered (w1 :: w2 :: rest) → w1.thickness ≤ t →
      t ≤ ((w1 :: w2 :: rest).getLast (by simp)).thickness →
      (findBracket (w1 :: w2 :: rest) t).isSome := by
  intro rest
  induction rest with
  | nil =>
    intro w1 w2 t hp h1 h2
    have hlast : (([w1, w2] : List WeightCategory).getLast (by simp)) = w2 := rfl
    rw [hlast] at h2
    rw [findBracket, if_pos ⟨h1, h2⟩]
    rfl
  | cons w3 rest ih =>
    intro w1 w2 t hp h1 h2
    rw [findBracket]
    by_cases hcond : w1.thickness ≤ t ∧ t ≤ w2.thickness
    · rw [if_pos hcond]
      rfl
    · rw [if_neg hcond]
      have hw2 : w2.thickness < t := by
        by_contra hle
        exact hcond ⟨h1, le_of_not_lt hle⟩
      have hlast : (w1 :: w2 :: w3 :: rest).getLast (by simp)
          = (w2 :: w3 :: rest).getLast (by simp) := List.getLast_cons _
      rw [hlast] at h2
      exact ih w2 w3 t (List.pairwise_cons.1 hp).2 (le_of_lt hw2) h2

/-- Monotonicity across brackets: for `t1 ≤ t2` the interpolated value of
`t2`'s bracket is at most that of `t1`'s bracket. -/
theorem findBracket_lerp_antitone :
    ∀ (ws : List WeightCategory) (t1 t2 : ℚ) (lo1 hi1 lo2 hi2 : WeightCategory),
      catalogOrdered ws →
      findBracket ws t1 = some (lo1, hi1) →
      findBracket ws t2 = some (lo2, hi2) →
      t1 ≤ t2 → lerpWPI lo2 hi2 t2 ≤ lerpWPI lo1 hi1 t1 := by
  intro ws
  induction ws with
  | nil =>
    intro t1 t2 lo1 hi1 lo2 hi2 _ h1
    simp [findBracket] at h1
  | cons w1 ws ih =>
    cases ws with
    | nil =>
      intro t1 t2 lo1 hi1 lo2 hi2 _ h1
      simp [findBracket] at h1
    | cons w2 rest =>
      intro t1 t2 lo1 hi1 lo2 hi2 hp h1 h2 h12
      have hp' : catalogOrdered (w2 :: rest) := (List.pairwise_cons.1 hp).2
      have hR12 := (List.pairwise_cons.1 hp).1 w2 (by simp)
      rw [findBracket] at h1 h2
      by_cases hc1 : w1.thickness ≤ t1 ∧ t1 ≤ w2.thickness
      · rw [if_pos hc1] at h1
        have hpair1 := Option.some.inj h1
        injection hpair1 with he1 he2
        subst he1
        subst he2
        by_cases hc2 : w1.thickness ≤ t2 ∧ t2 ≤ w2.thickness
        · rw [if_pos hc2] at h2
          have hpair2 := Option.some.inj h2
          injection hpair2 with he3 he4
          subst he3
          subst he4
          exact lerpWPI_antitone w1 w2 hR12.1 hR12.2 h12
        · rw [if_neg hc2] at h2
          obtain ⟨hlo2mem, _, hlo2le, hhi2ge, hbr2, hwpi2⟩ :=
            findBracket_sound _ t2 lo2 hi2 hp' h2
          have e1 : lerpWPI lo2 hi2 t2 ≤ lo2.wpi :=
            lerpWPI_le_left lo2 hi2 t2 hbr2 hwpi2 hlo2le
          have e2 : lo2.wpi ≤ w2.wpi :=
            (catalogOrdered_head_bound w2 rest hp' lo2 hlo2mem).2
          have e3 : w2.wpi ≤ lerpWPI w1 w2 t1 :=
            right_le_lerpWPI w1 w2 t1 hR12.1 hR12.2 hc1.2
          linarith
      · rw [if_neg hc1] at h1
        by_cases hc2 : w1.thickness ≤ t2 ∧ t2 ≤ w2.thickness
        · exfalso
          obtain ⟨hlo1mem, _, hlo1le, _, _, _⟩ := findBracket_sound _ t1 lo1 hi1 hp' h1
          have hge : w2.thickness ≤ lo1.thickness :=
            (catalogOrdered_head_bound w2 rest hp' lo1 hlo1mem).1
          exact hc1 ⟨by linarith [hR12.1], by linarith [hc2.2]⟩
        · rw [if_neg hc2] at h2
          exact ih t1 t2 lo1 hi1 lo2 hi2 hp' h1 h2 h12

/-- Unfolding of `interpolateWPI` when a bracket exists. -/
theorem interpolateWPI_of_bracket (c : Catalog) (t : ℚ) (lo hi : WeightCategory)
    (h : findBracket c.weights t = some (lo, hi)) :
    interpolateWPI c t = lerpWPI lo hi t := by
  unfold interpolateWPI
  rw [h]

/-- Unfolding of `interpolateWPI` on a singleton catalog (the
`lower === upper` early return). -/
theorem interpolateWPI_single (c : Catalog) (t : ℚ) (w : WeightCategory)
    (hw : c.weights = [w]) : interpolateWPI c t = w.wpi := by
  unfold interpolateWPI
  rw [hw]
  rfl

/-- Unfolding of `interpolateWPI` when no bracket exists and the catalog has
at least two entries: the code interpolates between the first and last
entries (extrapolating, since `t` is outside their range). -/
theorem interpolateWPI_of_none (c : Catalog) (t : ℚ) (w0 w1 : WeightCategory)
    (rest : List WeightCategory) (hw : c.weights = w0 :: w1 :: rest)
    (h : findBracket c.weights t = none) :
    interpolateWPI c t = lerpWPI w0 ((w1 :: rest).getLast (by simp)) t := by
  unfold interpolateWPI
  rw [h, hw]

/-- At the lower end's thickness the interpolation returns the lower WPI. -/
theorem lerpWPI_at_left (lo hi : WeightCategory) :
    lerpWPI lo hi lo.thickness = lo.wpi := by
  unfold lerpWPI
  rw [sub_self, zero_div, mul_zero, sub_zero]

/-- At the upper end's thickness the interpolation returns the upper WPI. -/
theorem lerpWPI_at_right (lo hi : WeightCategory)
    (hth : lo.thickness < hi.thickness) :
    lerpWPI lo hi hi.thickness = hi.wpi := by
  unfold lerpWPI
  rw [div_self (by linarith : hi.thickness - lo.thickness ≠ 0)]
  ring

/-- C3 amended: over a catalog with strictly increasing thickness and
non-increasing WPI, `interpolateWPI` is monotone non-increasing in the
combined thickness; outside the catalog's thickness range it does **not**
clamp but continues the linear interpolation between the first and last
catalog entries (returning values above the first WPI below the range and
below the last WPI above it). -/
theorem interpolateWPI_antitone_extrapolates :
    ∀ c : Catalog, catalogOrdered c.weights → c.weights ≠ [] →
      (∀ t1 t2 : ℚ, t1 ≤ t2 → interpolateWPI c t2 ≤ interpolateWPI c t1) ∧
      ∀ (first lastw : WeightCategory) (t : ℚ),
        c.weights.head? = some first → c.weights.getLast? = some lastw →
        (t < first.thickness ∨ lastw.thickness < t) →
        interpolateWPI c t = lerpWPI first lastw t := by
  intro c hp hne
  obtain ⟨w0, ws, hw⟩ := List.exists_cons_of_ne_nil hne
  cases ws with
  | nil =>
    constructor
    · intro t1 t2 _
      rw [interpolateWPI_single c t1 w0 hw, interpolateWPI_single c t2 w0 hw]
    · intro first lastw t hh hl _
      rw [hw] at hh hl
      have hf : first = w0 := by
        have := Option.some.inj hh
        exact this.symm
      have hlw : lastw = w0 := by
        have := Option.some.inj (by simpa using hl)
        exact this.symm
      rw [hf, hlw, interpolateWPI_single c t w0 hw]
      unfold lerpWPI
      rw [sub_self, zero_mul, sub_zero]
  | cons w1 rest =>
    have hplist : catalogOrdered (w0 :: w1 :: rest) := by rwa [hw] at hp
    have hpt : catalogOrdered (w1 :: rest) := (List.pairwise_cons.1 hplist).2
    have hR := (List.pairwise_cons.1 hplist).1
    have hwl_mem : (w1 :: rest).getLast (by simp) ∈ w1 :: rest := List.getLast_mem _
    have h0l := hR _ hwl_mem
    -- head and last bounds over the whole catalog
    have hhead : ∀ x ∈ w0 :: w1 :: rest,
        w0.thickness ≤ x.thickness ∧ x.wpi ≤ w0.wpi :=
      catalogOrdered_head_bound w0 (w1 :: rest) hplist
    have hlastcons : (w0 :: w1 :: rest).getLast (by simp)
        = (w1 :: rest).getLast (by simp) := List.getLast_cons _
    have hlastb : ∀ x ∈ w0 :: w1 :: rest,
        x.thickness ≤ ((w1 :: rest).getLast (by simp)).thickness ∧
        ((w1 :: rest).getLast (by simp)).wpi ≤ x.wpi := by
      intro x hx
      have := catalogOrdered_last_bound (w0 :: w1 :: rest) (by simp) hplist x hx
      rwa [hlastcons] at this
    -- the three evaluation regimes
    have hlow : ∀ t : ℚ, t < w0.thickness →
        interpolateWPI c t = lerpWPI w0 ((w1 :: rest).getLast (by simp)) t := by
      intro t ht
      apply interpolateWPI_of_none c t w0 w1 rest hw
      rw [hw]
      apply findBracket_none_low
      intro x hx
      have := (hhead x hx).1
      linarith
    have hhigh : ∀ t : ℚ, ((w1 :: rest).getLast (by simp)).thickness < t →
        interpolateWPI c t = lerpWPI w0 ((w1 :: rest).getLast (by simp)) t := by
      intro t ht
      apply interpolateWPI_of_none c t w0 w1 rest hw
      rw [hw]
      apply findBracket_none_high
      intro x hx
      have := (hlastb x hx).1
      linarith
    have hin : ∀ t : ℚ, w0.thickness ≤ t →
        t ≤ ((w1 :: rest).getLast (by simp)).thickness →
        ∃ lo hi, findBracket c.weights t = some (lo, hi) := by
      intro t h1 h2
      have hsome : (findBracket (w0 :: w1 :: rest) t).isSome := by
        apply findBracket_some_in_range rest w0 w1 t hplist h1
        rw [hlastcons]
        exact h2
      rw [hw]
      obtain ⟨p, hpair⟩ := Option.isSome_iff_exists.1 hsome
      exact ⟨p.1, p.2, by rwa [Prod.mk.eta]⟩
    constructor
    · intro t1 t2 h12
      rcases lt_or_le t1 w0.thickness with h1low | h1ge
      · rcases lt_or_le t2 w0.thickness with h2low | h2ge
        · rw [hlow t1 h1low, hlow t2 h2low]
          exact lerpWPI_antitone _ _ h0l.1 h0l.2 h12
        · rcases le_or_lt t2 (((w1 :: rest).getLast (by simp)).thickness)
            with h2in | h2high
          · -- t1 below range, t2 inside
            obtain ⟨lo, hi, hfb⟩ := hin t2 h2ge h2in
            rw [hlow t1 h1low, interpolateWPI_of_bracket c t2 lo hi hfb]
            obtain ⟨hlomem, _, hlole, _, hbr, hwpi⟩ :=
              findBracket_sound c.weights t2 lo hi (by rwa [hw]) hfb
            rw [hw] at hlomem
            have e1 : lerpWPI lo hi t2 ≤ lo.wpi :=
              lerpWPI_le_left lo hi t2 hbr hwpi hlole
            have e2 : lo.wpi ≤ w0.wpi := (hhead lo hlomem).2
            have e3 : lerpWPI w0 ((w1 :: rest).getLast (by simp)) w0.thickness
                ≤ lerpWPI w0 ((w1 :: rest).getLast (by simp)) t1 :=
              lerpWPI_antitone _ _ h0l.1 h0l.2 (le_of_lt h1low)
            rw [lerpWPI_at_left] at e3
            linarith
          · -- t1 below range, t2 above range
            rw [hlow t1 h1low, hhigh t2 h2high]
            exact lerpWPI_antitone _ _ h0l.1 h0l.2 h12
      · rcases le_or_lt t1 (((w1 :: rest).getLast (by simp)).thickness)
          with h1in | h1high
        · rcases le_or_lt t2 (((w1 :: rest).getLast (by simp)).thickness)
            with h2in | h2high
          · -- both inside the range
            obtain ⟨lo1, hi1, hfb1⟩ := hin t1 h1ge h1in
            obtain ⟨lo2, hi2, hfb2⟩ := hin t2 (le_trans h1ge h12) h2in
            rw [interpolateWPI_of_bracket c t1 lo1 hi1 hfb1,
              interpolateWPI_of_bracket c t2 lo2 hi2 hfb2]
            exact findBracket_lerp_antitone c.weights t1 t2 lo1 hi1 lo2 hi2
              (by rwa [hw]) hfb1 hfb2 h12
          · -- t1 inside, t2 above range
            obtain ⟨lo1, hi1, hfb1⟩ := hin t1 h1ge h1in
            rw [interpolateWPI_of_bracket c t1 lo1 hi1 hfb1, hhigh t2 h2high]
            obtain ⟨_, hhimem, _, hhige, hbr, hwpi⟩ :=
              findBracket_sound c.weights t1 lo1 hi1 (by rwa [hw]) hfb1
            rw [hw] at hhimem
            have e1 : hi1.wpi ≤ lerpWPI lo1 hi1 t1 :=
              right_le_lerpWPI lo1 hi1 t1 hbr hwpi hhige
            have e2 : ((w1 :: rest).getLast (by simp)).wpi ≤ hi1.wpi :=
              (hlastb hi1 hhimem).2
            have e3 : lerpWPI w0 ((w1 :: rest).getLast (by simp)) t2
                ≤ lerpWPI w0 ((w1 :: rest).getLast (by simp))
                    ((w1 :: rest).getLast (by simp)).thickness :=
              lerpWPI_antitone _ _ h0l.1 h0l.2 (le_of_lt h2high)
            rw [lerpWPI_at_right _ _ h0l.1] at e3
            linarith
        · -- both above the range
          rw [hhigh t1 h1high, hhigh t2 (lt_of_lt_of_le h1high h12)]
          exact lerpWPI_antitone _ _ h0l.1 h0l.2 h12
    · intro first lastw t hh hl hcase
      rw [hw] at hh hl
      have hf : first = w0 := (Option.some.inj hh).symm
      have hlw : lastw = (w1 :: rest).getLast (by simp) := by
        have h1 : (w0 :: w1 :: rest).getLast? =
            some ((w0 :: w1 :: rest).getLast (by simp)) :=
          List.getLast?_eq_getLast _ (by simp)
        rw [h1] at hl
        have := (Option.some.inj hl).symm
        rwa [hlastcons] at this
      rw [hf, hlw] at hcase
      rw [hf, hlw]
      rcases hcase with hlt | hgt
      · exact hlow t hlt
      · exact hhigh t hgt

/-- Witness instantiating the C3 theorem on the scenario catalog. -/
theorem interpolateWPI_antitone_extrapolates_witness :
    interpolateWPI sampleCatalog 5 ≤ interpolateWPI sampleCatalog 3 :=
  (interpolateWPI_antitone_extrapolates sampleCatalog
    (by norm_num [catalogOrdered, sampleCatalog, lace, worsted, bulky,
      List.pairwise_cons])
    (by simp [sampleCatalog])).1 3 5 (by norm_num)

/-- C3 counterexample: the scenario catalog satisfies the claim's ordering
hypotheses, the thickness 0 lies below the first entry's thickness 1, yet
`interpolateWPI` does not return the first entry's WPI (it extrapolates to
234/7 instead of clamping to 30). -/
theorem interpolateWPI_below_range_not_clamped :
    catalogOrdered sampleCatalog.weights ∧
    sampleCatalog.weights.head? = some lace ∧
    (0 : ℚ) < lace.thickness ∧
    interpolateWPI sampleCatalog 0 = 234 / 7 ∧
    interpolateWPI sampleCatalog 0 ≠ lace.wpi := by
  refine ⟨?_, rfl, by norm_num [lace], ?_, ?_⟩
  · norm_num [catalogOrdered, sampleCatalog, lace, worsted, bulky, List.pairwise_cons]
  · norm_num [interpolateWPI, findBracket, lerpWPI, sampleCatalog, lace, worsted, bulky]
  · norm_num [interpolateWPI, findBracket, lerpWPI, sampleCatalog, lace, worsted, bulky]

/-!
The `SwatchRenderer` color parser `hexToRgb`, built on the regular
expression `^#?([a-f\d]\x7b2\x7d)([a-f\d]\x7b2\x7d)([a-f\d]\x7b2\x7d)$` with
the case-insensitive flag, and `parseInt(_, 16)` on each captured pair.
-/

/-- An RGB triple as produced by `hexToRgb`. -/
structure RGB where
  r : ℕ
  g : ℕ
  b : ℕ
deriving DecidableEq, Repr

/-- A character matched by `[a-f\d]` under the case-insensitive flag. -/
def isHexDigitChar (ch : Char) : Bool :=
  ch.isDigit || ('a' ≤ ch && ch ≤ 'f') || ('A' ≤ ch && ch ≤ 'F')

/-- Numeric value of one hex digit (`parseInt` digit semantics). -/
def hexDigitVal (ch : Char) : ℕ :=
  if ch.isDigit then ch.toNat - '0'.toNat
  else if 'a' ≤ ch ∧ ch ≤ 'f' then ch.toNat - 'a'.toNat + 10
  else if 'A' ≤ ch ∧ ch ≤ 'F' then ch.toNat - 'A'.toNat + 10
  else 0

/-- `parseInt(two-hex-digit capture, 16)`. -/
def hexPairVal (c1 c2 : Char) : ℕ :=
  16 * hexDigitVal c1 + hexDigitVal c2

/-- The `#?` prefix of the regex: consume one leading `#` when present
(`#` is not a hex digit, so a match must consume it). -/
def stripHash (cs : List Char) : List Char :=
  if cs.head? = some '#' then cs.tail else cs

/-- The anchored regex match: after the optional `#`, exactly six
case-insensitive hex digits, captured in three pairs. -/
def execHexRegex (cs : List Char) :
    Option ((Char × Char) × (Char × Char) × (Char × Char)) :=
  match stripHash cs with
  | [c1, c2, c3, c4, c5, c6] =>
    if isHexDigitChar c1 && isHexDigitChar c2 && isHexDigitChar c3 &&
        isHexDigitChar c4 && isHexDigitChar c5 && isHexDigitChar c6 then
      some ((c1, c2), (c3, c4), (c5, c6))
    else none
  | _ => none

/-- `hexToRgb`: parse the three captured pairs, or fall back to mid-gray
`(128, 128, 128)` when the regex does not match. -/
def hexToRgb (s : String) : RGB :=
  match execHexRegex s.data with
  | some ((c1, c2), (c3, c4), (c5, c6)) =>
    ⟨hexPairVal c1 c2, hexPairVal c3 c4, hexPairVal c5 c6⟩
  | none => ⟨128, 128, 128⟩

/-- The spec's color-input contract, stated from its words: a valid color
string is six hex digits optionally prefixed with `#`. -/
def specHexColorValid (s : String) : Prop :=
  ∃ core : List Char, (s.data = '#' :: core ∨ s.data = core) ∧
    core.length = 6 ∧ ∀ ch ∈ core, isHexDigitChar ch

/-- The exact RGB triple denoted by six hex digits (the spec's "exact RGB
triple"). -/
def specHexTriple (core : List Char) : RGB :=
  match core with
  | [c1, c2, c3, c4, c5, c6] =>
    ⟨16 * hexDigitVal c1 + hexDigitVal c2,
     16 * hexDigitVal c3 + hexDigitVal c4,
     16 * hexDigitVal c5 + hexDigitVal c6⟩
  | _ => ⟨0, 0, 0⟩

/-- C9: every string that is not a valid optionally-`#`-prefixed 6-hex-digit
color parses to the mid-gray fallback `(128, 128, 128)`, and every valid one
parses to its exact RGB triple. -/
theorem hexToRgb_contract :
    ∀ s : String,
      (¬ specHexColorValid s → hexToRgb s = ⟨128, 128, 128⟩) ∧
      ∀ core : List Char, (s.data = '#' :: core ∨ s.data = core) →
        core.length = 6 → (∀ ch ∈ core, isHexDigitChar ch) →
        hexToRgb s = specHexTriple core := by
  intro s
  constructor
  · intro hnv
    unfold hexToRgb
    cases hex : execHexRegex s.data with
    | none => rfl
    | some x =>
      exfalso
      apply hnv
      unfold execHexRegex at hex
      split at hex
      case _ c1 c2 c3 c4 c5 c6 heq =>
        refine ⟨[c1, c2, c3, c4, c5, c6], ?_, rfl, ?_⟩
        · by_cases hh : s.data.head? = some '#'
          · left
            cases hd : s.data with
            | nil => rw [hd] at hh; exact absurd hh (by simp)
            | cons c r =>
              rw [hd] at hh
              have hc : c = '#' := by simpa using hh
              subst hc
              rw [hd] at heq
              simp only [stripHash, List.head?_cons, if_true, List.tail_cons,
                reduceIte] at heq
              rw [heq]
          · right
            rw [stripHash, if_neg hh] at heq
            exact heq
        · split at hex
          case _ hdig =>
            simp only [Bool.and_eq_true] at hdig
            intro ch hch
            simp only [List.mem_cons, List.not_mem_nil, or_false] at hch
            rcases hch with h | h | h | h | h | h
            · subst h; exact hdig.1.1.1.1.1
            · subst h; exact hdig.1.1.1.1.2
            · subst h; exact hdig.1.1.1.2
            · subst h; exact hdig.1.1.2
            · subst h; exact hdig.1.2
            · subst h; exact hdig.2
          case _ => exact absurd hex (by simp)
      case _ => exact absurd hex (by simp)
  · intro core hor hlen hhex
    have hstrip : stripHash s.data = core := by
      rcases hor with h | h
      · rw [h, stripHash]
        simp
      · rw [h, stripHash]
        cases hc : core with
        | nil => rw [hc] at hlen; simp at hlen
        | cons c r =>
          have hmem : isHexDigitChar c := hhex c (by rw [hc]; simp)
          have hne : c ≠ '#' := by
            intro hcc
            rw [hcc] at hmem
            exact absurd hmem (by decide)
          rw [← hc]
          have : core.head? ≠ some '#' := by
            rw [hc]
            simp [hne]
          rw [if_neg this]
    obtain ⟨c1, c2, c3, c4, c5, c6, hcore⟩ :
        ∃ a b c d e f, core = [a, b, c, d, e, f] := by
      rcases core with _ | ⟨a, _ | ⟨b, _ | ⟨c, _ | ⟨d, _ | ⟨e, _ | ⟨f, _ | ⟨g, tl⟩⟩⟩⟩⟩⟩⟩ <;>
        simp at hlen
      exact ⟨a, b, c, d, e, f, rfl⟩
    subst hcore
    have hdig : ∀ ch ∈ [c1, c2, c3, c4, c5, c6], isHexDigitChar ch := hhex
    have hcond : (isHexDigitChar c1 && isHexDigitChar c2 && isHexDigitChar c3 &&
        isHexDigitChar c4 && isHexDigitChar c5 && isHexDigitChar c6) = true := by
      simp only [Bool.and_eq_true]
      exact ⟨⟨⟨⟨⟨hdig c1 (by simp), hdig c2 (by simp)⟩, hdig c3 (by simp)⟩,
        hdig c4 (by simp)⟩, hdig c5 (by simp)⟩, hdig c6 (by simp)⟩
    have hexec : execHexRegex s.data = some ((c1, c2), (c3, c4), (c5, c6)) := by
      unfold execHexRegex
      rw [hstrip]
      show (if (isHexDigitChar c1 && isHexDigitChar c2 && isHexDigitChar c3 &&
          isHexDigitChar c4 && isHexDigitChar c5 && isHexDigitChar c6) = true then
          some ((c1, c2), (c3, c4), (c5, c6)) else none) = _
      rw [if_pos hcond]
    unfold hexToRgb
    rw [hexec]
    rfl

/-- Witness instantiating the C9 theorem: the malformed string `"notahex"`
falls back to mid-gray, and a valid `#`-prefixed string parses exactly. -/
theorem hexToRgb_contract_witness :
    hexToRgb "notahex" = ⟨128, 128, 128⟩ ∧
    hexToRgb "#1a2B3c" = specHexTriple ['1', 'a', '2', 'B', '3', 'c'] := by
  constructor
  · apply (hexToRgb_contract "notahex").1
    rintro ⟨core, hor, hlen, hhex⟩
    rcases hor with h | h
    · rw [show "notahex".data = ['n', 'o', 't', 'a', 'h', 'e', 'x'] from rfl] at h
      injection h with h1 _
      exact absurd h1 (by decide)
    · rw [show "notahex".data = ['n', 'o', 't', 'a', 'h', 'e', 'x'] from rfl] at h
      rw [← h] at hlen
      simp at hlen
  · exact (hexToRgb_contract "#1a2B3c").2 ['1', 'a', '2', 'B', '3', 'c']
      (Or.inl (by decide)) (by decide) (by decide)

/-!
The `SwatchRenderer.animateFabric` vertex displacement.  The fabric plane is
`PlaneGeometry(3.5, 3.5, 64, 64)`, so undeformed vertex coordinates satisfy
`|x| ≤ 1.75` and `|y| ≤ 1.75`, with the outer boundary at `|x| = 1.75` or
`|y| = 1.75`.  Each tick sets the vertex's z-coordinate from its original
`(x, y)` and the accumulated time.
-/

/-- Sum of the four traveling sine waves of `animateFabric`. -/
noncomputable def waveSum (time x y : ℝ) : ℝ :=
  Real.sin (x * 1.8 + time * 0.6) * 0.18 +
  Real.sin (y * 2.2 + time * 0.9) * 0.14 +
  Real.sin ((x + y) * 1.2 + time * 0.4) * 0.1 +
  Real.sin (x * 3.0 - time * 1.1) * 0.06

/-- The edge-damping factor: product of two cubic falloffs in normalized
distance from center. -/
noncomputable def edgeFactor (x y : ℝ) : ℝ :=
  (1 - (|x| / 1.75) ^ 3) * (1 - (|y| / 1.75) ^ 3)

/-- The out-of-plane displacement written to `positions[i + 2]`:
wave sum times the edge factor clamped below at zero. -/
noncomputable def fabricDisplacement (time x y : ℝ) : ℝ :=
  waveSum time x y * max 0 (edgeFactor x y)

/-- C7 amended: for every time, vertices on the plane's outer boundary have
zero out-of-plane displacement, and the edge-damping factor attains its
maximum at the center of the plane (so the motion envelope is concentrated
toward the center); the instantaneous displacement magnitude itself need not
peak at the center. -/
theorem fabric_edge_damping :
    ∀ time x y : ℝ,
      ((|x| = 1.75 ∨ |y| = 1.75) → fabricDisplacement time x y = 0) ∧
      (|x| ≤ 1.75 → |y| ≤ 1.75 → edgeFactor x y ≤ edgeFactor 0 0) := by
  intro time x y
  constructor
  · intro hb
    unfold fabricDisplacement edgeFactor
    rcases hb with h | h
    · rw [h]
      norm_num
    · rw [h]
      norm_num
  · intro hx hy
    unfold edgeFactor
    have hx0 : (0 : ℝ) ≤ |x| / 1.75 := by positivity
    have hy0 : (0 : ℝ) ≤ |y| / 1.75 := by positivity
    have hx1 : |x| / 1.75 ≤ 1 := by
      rw [div_le_one (by norm_num : (0 : ℝ) < 1.75)]
      exact hx
    have hy1 : |y| / 1.75 ≤ 1 := by
      rw [div_le_one (by norm_num : (0 : ℝ) < 1.75)]
      exact hy
    have hx3 : (|x| / 1.75) ^ 3 ≤ 1 := pow_le_one₀ hx0 hx1
    have hy3 : (|y| / 1.75) ^ 3 ≤ 1 := pow_le_one₀ hy0 hy1
    have hx3n : (0 : ℝ) ≤ (|x| / 1.75) ^ 3 := by positivity
    have hy3n : (0 : ℝ) ≤ (|y| / 1.75) ^ 3 := by positivity
    have h00 : edgeFactor 0 0 = 1 := by
      unfold edgeFactor
      norm_num
    rw [edgeFactor] at h00
    rw [h00]
    nlinarith

/-- Witness instantiating the C7 theorem: at time 0 the boundary vertex
`(1.75, 0)` has zero displacement. -/
theorem fabric_edge_damping_witness :
    fabricDisplacement 0 1.75 0 = 0 :=
  (fabric_edge_damping 0 1.75 0).1 (Or.inl (by norm_num))

/-- C7 counterexample: displacement magnitude is not maximal at (or near)
the center for every time — at time 0 every wave vanishes at the center
while the in-bounds vertex `(1, 0)` has strictly positive displacement. -/
theorem fabric_center_not_maximal :
    ¬ (∀ time x y : ℝ, |x| ≤ 1.75 → |y| ≤ 1.75 →
        |fabricDisplacement time x y| ≤ |fabricDisplacement time 0 0|) := by
  intro h
  have hcenter : fabricDisplacement 0 0 0 = 0 := by
    unfold fabricDisplacement waveSum
    norm_num
  have hpos : 0 < fabricDisplacement 0 1 0 := by
    unfold fabricDisplacement
    apply mul_pos
    · unfold waveSum
      have hpi := Real.pi_gt_three
      have s1 : 0 < Real.sin (1 * 1.8 + 0 * 0.6) := by
        norm_num
        apply Real.sin_pos_of_pos_of_lt_pi (by norm_num)
        linarith
      have s2 : Real.sin (0 * 2.2 + 0 * 0.9) = 0 := by
        norm_num
      have s3 : 0 < Real.sin ((1 + 0) * 1.2 + 0 * 0.4) := by
        norm_num
        apply Real.sin_pos_of_pos_of_lt_pi (by norm_num)
        linarith
      have s4 : 0 < Real.sin (1 * 3.0 - 0 * 1.1) := by
        norm_num
        apply Real.sin_pos_of_pos_of_lt_pi (by norm_num)
        linarith
      nlinarith
    · have he : edgeFactor 1 0 = 1 - (1 / 1.75) ^ 3 := by
        unfold edgeFactor
        norm_num
      rw [he]
      have hlt : ((1 : ℝ) / 1.75) ^ 3 < 1 := by
        apply pow_lt_one₀ (by norm_num) (by norm_num)
        norm_num
      rw [max_eq_right (by linarith)]
      linarith
  have hb := h 0 1 0 (by norm_num) (by norm_num)
  rw [hcenter] at hb
  simp only [abs_zero] at hb
  have : fabricDisplacement 0 1 0 = 0 := abs_eq_zero.1 (le_antisymm hb (abs_nonneg _))
  linarith

/-!
The `SwatchRenderer.createYarnTexture` synthesizer.  The 512×512 canvas is
filled white, and for a non-empty strand list three strictly ordered passes
stroke bezier paths onto it.  The canvas 2D rasterizer is external to the
repository, so a texture is modelled as the background fill plus the ordered
list of stroke commands (style, line width, control points) issued to the
context; a command-free canvas is uniformly its fill color.
-/

/-- One input strand as consumed by the renderer (only its color is read by
the drawing passes). -/
structure Strand where
  color : String
deriving DecidableEq, Repr

/-- One `ctx.stroke()` call: the active stroke style and line width, and the
path's control points (`moveTo` then `bezierCurveTo`). -/
structure StrokeCmd where
  style : String
  width : ℝ
  path : List (ℝ × ℝ)

/-- `Math.floor(v * pct/100)` on a non-negative integer channel, exact as
natural division (used for the 0.5/0.55/0.8 shadow darkenings). -/
def dimmed (pct v : ℕ) : ℕ :=
  v * pct / 100

/-- A CSS `rgb(r, g, b)` style string. -/
def rgbStyle (r g b : ℕ) : String :=
  "rgb(" ++ toString r ++ ", " ++ toString g ++ ", " ++ toString b ++ ")"

/-- `drawAscendingLeg`: bulged bezier from the bottom anchor up to the arc
anchor; `direction` is -1 for the left leg and 1 for the right leg. -/
noncomputable def ascendingLegPath (x arcY bottomY stitchHeight direction : ℝ) :
    List (ℝ × ℝ) :=
  let bulgeAmount := stitchHeight * 0.15 * direction
  [(x, bottomY),
   (x + bulgeAmount, bottomY - stitchHeight * 0.3),
   (x + bulgeAmount, arcY + stitchHeight * 0.2),
   (x, arcY)]

/-- `drawArc`: the rounded loop-top bezier. -/
noncomputable def arcPath (centerX arcY arcWidth arcHeight : ℝ) : List (ℝ × ℝ) :=
  [(centerX - arcWidth, arcY),
   (centerX - arcWidth, arcY - arcHeight),
   (centerX + arcWidth, arcY - arcHeight),
   (centerX + arcWidth, arcY)]

/-- `drawConnection`: the sagging horizontal link bezier. -/
noncomputable def connectionPath (leftX rightX y stitchHeight : ℝ) : List (ℝ × ℝ) :=
  let sag := stitchHeight * 0.06
  [(leftX, y),
   (leftX + (rightX - leftX) * 0.3, y + sag),
   (leftX + (rightX - leftX) * 0.7, y + sag),
   (rightX, y)]

/-- `drawColumnAscending`: per strand (laterally offset, thinned to
`yarnWidth / sqrt(strandCount)`), rows traversed top-down, each row issuing
shadow and main strokes for the left and right legs. -/
noncomputable def drawColumnAscending (col rows : ℕ) (stitchWidth stitchHeight : ℝ)
    (strands : List Strand) (yarnWidth : ℝ) : List StrokeCmd :=
  let centerX := (col : ℝ) * stitchWidth + stitchWidth / 2
  let legSpread := stitchWidth * 0.28
  let strandCount := strands.length
  strands.enum.flatMap fun si =>
    let rgb := hexToRgb si.2.color
    let offset := ((si.1 : ℝ) - ((strandCount : ℝ) - 1) / 2) * (yarnWidth * 0.1)
    let plyWidth := yarnWidth / Real.sqrt (strandCount : ℝ)
    (List.range rows).reverse.flatMap fun row =>
      let topY := (row : ℝ) * stitchHeight
      let arcY := topY + stitchHeight * 0.15
      let bottomY := topY + stitchHeight * 1.05
      [⟨rgbStyle (dimmed 50 rgb.r) (dimmed 50 rgb.g) (dimmed 50 rgb.b),
        plyWidth * 1.15,
        ascendingLegPath (centerX - legSpread + offset + 1) (arcY + 1) (bottomY + 1)
          stitchHeight (-1)⟩,
       ⟨rgbStyle (dimmed 80 rgb.r) (dimmed 80 rgb.g) (dimmed 80 rgb.b), plyWidth,
        ascendingLegPath (centerX - legSpread + offset) arcY bottomY stitchHeight (-1)⟩,
       ⟨rgbStyle (dimmed 50 rgb.r) (dimmed 50 rgb.g) (dimmed 50 rgb.b),
        plyWidth * 1.15,
        ascendingLegPath (centerX + legSpread + offset + 1) (arcY + 1) (bottomY + 1)
          stitchHeight 1⟩,
       ⟨rgbStyle (dimmed 80 rgb.r) (dimmed 80 rgb.g) (dimmed 80 rgb.b), plyWidth,
        ascendingLegPath (centerX + legSpread + offset) arcY bottomY stitchHeight 1⟩]

/-- `drawColumnArcs`: per strand and row, shadow, full-brightness main, and
translucent highlight strokes of the loop-top arc. -/
noncomputable def drawColumnArcs (col rows : ℕ) (stitchWidth stitchHeight : ℝ)
    (strands : List Strand) (yarnWidth : ℝ) : List StrokeCmd :=
  let centerX := (col : ℝ) * stitchWidth + stitchWidth / 2
  let legSpread := stitchWidth * 0.28
  let arcWidth := legSpread
  let strandCount := strands.length
  strands.enum.flatMap fun si =>
    let rgb := hexToRgb si.2.color
    let offset := ((si.1 : ℝ) - ((strandCount : ℝ) - 1) / 2) * (yarnWidth * 0.1)
    let plyWidth := yarnWidth / Real.sqrt (strandCount : ℝ)
    (List.range rows).flatMap fun row =>
      let topY := (row : ℝ) * stitchHeight
      let arcY := topY + stitchHeight * 0.15
      let arcHeight := stitchHeight * 0.18
      [⟨rgbStyle (dimmed 55 rgb.r) (dimmed 55 rgb.g) (dimmed 55 rgb.b),
        plyWidth * 1.15,
        arcPath (centerX + offset + 1) (arcY + 1) arcWidth arcHeight⟩,
       ⟨si.2.color, plyWidth,
        arcPath (centerX + offset) arcY arcWidth arcHeight⟩,
       ⟨"rgba(255, 255, 255, 0.3)", plyWidth * 0.3,
        arcPath (centerX + offset - 0.4) (arcY - 0.4) arcWidth arcHeight⟩]

/-- `drawRowConnections`: per strand and adjacent column pair, shadow, main,
and highlight strokes of the linking curve. -/
noncomputable def drawRowConnections (row cols : ℕ) (stitchWidth stitchHeight : ℝ)
    (strands : List Strand) (yarnWidth : ℝ) : List StrokeCmd :=
  let topY := (row : ℝ) * stitchHeight
  let arcY := topY + stitchHeight * 0.15
  let legSpread := stitchWidth * 0.28
  let strandCount := strands.length
  strands.enum.flatMap fun si =>
    let rgb := hexToRgb si.2.color
    let offset := ((si.1 : ℝ) - ((strandCount : ℝ) - 1) / 2) * (yarnWidth * 0.1)
    let plyWidth := yarnWidth / Real.sqrt (strandCount : ℝ)
    (List.range (cols - 1)).flatMap fun col =>
      let leftX := (col : ℝ) * stitchWidth + stitchWidth / 2 + legSpread + offset
      let rightX := ((col : ℝ) + 1) * stitchWidth + stitchWidth / 2 - legSpread + offset
      [⟨rgbStyle (dimmed 55 rgb.r) (dimmed 55 rgb.g) (dimmed 55 rgb.b),
        plyWidth * 1.15,
        connectionPath (leftX + 1) (rightX + 1) (arcY + 1) stitchHeight⟩,
       ⟨si.2.color, plyWidth,
        connectionPath leftX rightX arcY stitchHeight⟩,
       ⟨"rgba(255, 255, 255, 0.3)", plyWidth * 0.3,
        connectionPath (leftX - 0.4) (rightX - 0.4) (arcY - 0.4) stitchHeight⟩]

/-- The synthesized texture: canvas size, uniform background fill, stroke
command list in draw order, and the wrap/repeat configuration (absent on the
empty-strand early return, which skips the `RepeatWrapping` setup). -/
structure Texture where
  size : ℕ
  background : RGB
  strokes : List StrokeCmd
  wrapRepeat : Option (ℝ × ℝ)

/-- `createYarnTexture`: fill the 512×512 canvas white; for an empty strand
list return immediately (a flat raster), otherwise run the three passes —
ascending legs, row connections, then loop arcs. -/
noncomputable def createYarnTexture (strands : List Strand)
    (needleSize yarnThickness : ℝ) : Texture :=
  let size : ℕ := 512
  if strands.isEmpty then
    { size := size, background := ⟨255, 255, 255⟩, strokes := [], wrapRepeat := none }
  else
    let yarnWidth := 2.5 + yarnThickness * 0.7
    let stitchWidth := 14 + needleSize * 2
    let stitchHeight := stitchWidth * 1.2
    let cols := (⌈(size : ℝ) / stitchWidth⌉ + 2).toNat
    let rows := (⌈(size : ℝ) / stitchHeight⌉ + 2).toNat
    { size := size,
      background := ⟨255, 255, 255⟩,
      strokes :=
        ((List.range cols).flatMap fun col =>
          drawColumnAscending col rows stitchWidth stitchHeight strands yarnWidth) ++
        ((List.range rows).flatMap fun row =>
          drawRowConnections row cols stitchWidth stitchHeight strands yarnWidth) ++
        ((List.range cols).flatMap fun col =>
          drawColumnArcs col rows stitchWidth stitchHeight strands yarnWidth),
      wrapRepeat := some (1.5, 1.5) }

/-- Follows the spec's words: a "neutral-gray" color is achromatic with
equal channels strictly between black and white (the spec's own concrete
grays are `(128, 128, 128)` and `0xdddddd`). -/
def IsNeutralGray (c : RGB) : Prop :=
  c.r = c.g ∧ c.g = c.b ∧ 0 < c.r ∧ c.r < 255

/-- C8 amended: synthesizing a texture from an empty strand sequence issues
no strokes and yields a flat raster of the uniform **white** background fill
`(255, 255, 255)`, never an error, for any needle-size and yarn-thickness
geometry parameters. -/
theorem createYarnTexture_empty_flat :
    ∀ needleSize yarnThickness : ℝ,
      (createYarnTexture [] needleSize yarnThickness).strokes = [] ∧
      (createYarnTexture [] needleSize yarnThickness).background = ⟨255, 255, 255⟩ := by
  intro n y
  exact ⟨rfl, rfl⟩

/-- C8 counterexample: the empty-strand raster is flat but its uniform color
is white `(255, 255, 255)`, which is not a neutral gray. -/
theorem createYarnTexture_empty_not_gray :
    (createYarnTexture [] 4 4).strokes = [] ∧
    (createYarnTexture [] 4 4).background = ⟨255, 255, 255⟩ ∧
    ¬ IsNeutralGray (createYarnTexture [] 4 4).background := by
  refine ⟨rfl, rfl, ?_⟩
  have hb : (createYarnTexture [] (4 : ℝ) 4).background = ⟨255, 255, 255⟩ := rfl
  rw [hb]
  rintro ⟨-, -, -, hlt⟩
  exact absurd hlt (by norm_num)

end KnitSim
